import Mathlib

/-!
Verification of the roura-agent core against its specification.

This file gives a shallow embedding, in Lean 4, of the parts of the
`roura_agent` Python package covered by the specification: the intent
router (`roura_agent/intent.py`), the agent-context constraint store
(`roura_agent/agent/context.py`), the tool-call dispatch section of the
agent loop (`roura_agent/agent/loop.py`), the streaming tool-call
accumulator (`roura_agent/llm/ollama.py`), and the verification loop
(`roura_agent/execution_loop.py`).  Pure Python functions become Lean
functions; filesystem, subprocess and model I/O are modelled as explicit
oracle parameters; Python `dict`s become association lists; Python
exceptions become `Except`/`Option` values.  All definitions are
executable, so every theorem can be instantiated on concrete inputs.
-/

namespace Roura

/-! ## String helpers (Python `in`, `str.strip`, `re.sub`, `str.lower`) -/

/-- Python whitespace (`\s` for the ASCII inputs at hand): space, tab,
newline, carriage return, vertical tab, form feed. -/
def isSpaceCh (c : Char) : Bool :=
  c == ' ' || c == '\t' || c == '\n' || c == '\r' ||
  c == Char.ofNat 11 || c == Char.ofNat 12

/-- Does the first list occur at the start of the second list? -/
def listStart : List Char → List Char → Bool
  | [], _ => true
  | _ :: _, [] => false
  | a :: as, b :: bs => a == b && listStart as bs

/-- Python `needle in hay`: substring containment. -/
def substrIn (needle hay : String) : Bool :=
  (hay.toList.tails).any (fun t => listStart needle.toList t)

/-- Python `str.strip()` on a char list: drop leading and trailing
whitespace. -/
def stripChars (l : List Char) : List Char :=
  ((l.dropWhile isSpaceCh).reverse.dropWhile isSpaceCh).reverse

/-- Python `re.sub(r'\s+', ' ', text)`: replace each maximal whitespace
run by a single space.  The flag records whether we are inside a run. -/
def collapseGo : Bool → List Char → List Char
  | _, [] => []
  | inRun, c :: cs =>
    if isSpaceCh c then
      if inRun then collapseGo true cs else ' ' :: collapseGo true cs
    else c :: collapseGo false cs

/-- Normalization done by `classify_intent`:
`text = user_text.lower().strip()` then whitespace collapse. -/
def normalizeText (s : String) : String :=
  ⟨collapseGo false (stripChars (s.toList.map Char.toLower))⟩

/-- Split a char list into the chunks between space characters
(Python `text.split(" ")` on already-collapsed text). -/
def wordsGo : List Char → List Char → List (List Char)
  | cur, [] => [cur.reverse]
  | cur, c :: cs =>
    if c == ' ' then cur.reverse :: wordsGo [] cs else wordsGo (c :: cur) cs

/-- The standalone words of a string. -/
def wordsOf (s : String) : List String :=
  (wordsGo [] s.toList).map (fun l => ⟨l⟩)

/-! ## Intent router — `roura_agent/intent.py` -/

/-- `Intent` enum from `intent.py`. -/
inductive Intent where
  | CHAT
  | CODE_WRITE
  | CODE_REVIEW_QUICK
  | CODE_REVIEW_EXHAUSTIVE
  | DIAGNOSE
  | RESEARCH
deriving DecidableEq, Repr

/-- `HARD_MODE_TOKENS` from `intent.py` (a frozenset; listed in source
order — only membership matters to the classifier's outcome). -/
def HARD_MODE_TOKENS : List String :=
  ["code", "repo", "review", "improve", "architecture", "swift", "xcode",
   "auth", "service", "tests", "refactor", "bug", "error", "crash", "build",
   "compile", "lint", "ci", "workflow", "model", "view", "viewmodel", "screen",
   "firebase", "api", "networking", "concurrency", "actor", "mainactor",
   "performance", "memory", "leak", "ui", "ux", "beam", "feed", "cell",
   "python", "typescript", "javascript", "rust", "go", "kotlin", "java",
   "test", "pytest", "unittest", "jest", "debug", "fix", "implement",
   "create", "add", "update", "delete", "remove", "migrate", "deploy"]

/-- `DIAGNOSE_TRIGGERS` from `intent.py`. -/
def DIAGNOSE_TRIGGERS : List String :=
  ["error", "crash", "failing", "fails", "stack trace", "traceback",
   "exception", "build failed", "test failed", "compile", "broken",
   "not working", "doesn't work", "bug", "issue"]

/-- `CODE_WRITE_TRIGGERS` from `intent.py`. -/
def CODE_WRITE_TRIGGERS : List String :=
  ["create", "implement", "wire", "add", "generate", "refactor", "write",
   "build", "make", "update", "migrate", "delete", "remove", "modify",
   "change", "fix", "develop", "design", "construct"]

/-- `REVIEW_TRIGGERS` from `intent.py`. -/
def REVIEW_TRIGGERS : List String :=
  ["review", "how is my code", "thoughts on", "quality", "improve",
   "architecture", "audit", "analyze", "assess", "evaluate", "check",
   "how are we doing", "what do you think"]

/-- Question-start words used by `classify_intent`
(`text.startswith(("what", "how", "why", "where", "when", "who"))`). -/
def QUESTION_STARTS : List String :=
  ["what", "how", "why", "where", "when", "who"]

/-- `IntentDecision` dataclass.  `confidence` is the Python float scaled
by 100 (the source only uses the literals 0.95/0.85/0.80/0.75/0.70/0.60). -/
structure IntentDecision where
  intent : Intent
  confidence : Nat
  hard_mode_triggered : Bool
  matched_tokens : List String
  rationale : String
  requires_repo : Bool
  requires_execution_loop : Bool
deriving DecidableEq, Repr

/-- The `repo_intents` set of `IntentDecision.__post_init__`. -/
def repoIntentB : Intent → Bool
  | .CODE_WRITE => true
  | .CODE_REVIEW_EXHAUSTIVE => true
  | .CODE_REVIEW_QUICK => true
  | .DIAGNOSE => true
  | .RESEARCH => true
  | .CHAT => false

/-- The `exec_loop_intents` set of `IntentDecision.__post_init__`. -/
def execLoopIntentB : Intent → Bool
  | .CODE_WRITE => true
  | .DIAGNOSE => true
  | _ => false

/-- Construct an `IntentDecision`, deriving `requires_repo` and
`requires_execution_loop` exactly as `__post_init__` does. -/
def IntentDecision.make (intent : Intent) (confidence : Nat) (hard : Bool)
    (matched : List String) (rationale : String) : IntentDecision :=
  { intent := intent
    confidence := confidence
    hard_mode_triggered := hard
    matched_tokens := matched
    rationale := rationale
    requires_repo := repoIntentB intent
    requires_execution_loop := execLoopIntentB intent }

/-- `classify_intent` from `intent.py`, translated branch for branch.
The rationale strings elide the Python-formatted trigger lists. -/
def classify_intent (user_text : String) : IntentDecision :=
  let text := normalizeText user_text
  let matched_tokens := HARD_MODE_TOKENS.filter (fun t => substrIn t text)
  let hard_mode_triggered := !matched_tokens.isEmpty
  if hard_mode_triggered then
    let diagnose_matches := DIAGNOSE_TRIGGERS.filter (fun t => substrIn t text)
    if !diagnose_matches.isEmpty then
      IntentDecision.make .DIAGNOSE
        (if 1 < diagnose_matches.length then 95 else 85)
        true matched_tokens "Diagnose triggers detected"
    else
      let write_matches := CODE_WRITE_TRIGGERS.filter (fun t => substrIn t text)
      if !write_matches.isEmpty then
        IntentDecision.make .CODE_WRITE
          (if 1 < write_matches.length then 95 else 85)
          true matched_tokens "Code write triggers detected"
      else
        let review_matches := REVIEW_TRIGGERS.filter (fun t => substrIn t text)
        if !review_matches.isEmpty then
          IntentDecision.make .CODE_REVIEW_EXHAUSTIVE
            (if 1 < review_matches.length then 95 else 85)
            true matched_tokens "Review triggers detected"
        else
          IntentDecision.make .CODE_REVIEW_EXHAUSTIVE 80
            true matched_tokens "Hard mode triggered, defaulting to exhaustive review"
  else
    let review_matches := REVIEW_TRIGGERS.filter (fun t => substrIn t text)
    if !review_matches.isEmpty then
      IntentDecision.make .CODE_REVIEW_QUICK 75 false []
        "Review keywords without hard mode tokens"
    else if (match text.toList.getLast? with
             | some c => c == '?'
             | none => false)
            || QUESTION_STARTS.any (fun w => listStart w.toList text.toList) then
      IntentDecision.make .RESEARCH 70 false [] "Question pattern detected"
    else
      IntentDecision.make .CHAT 60 false []
        "No special patterns detected, defaulting to chat"

/-- A filtered list is nonempty exactly when some element satisfies the
predicate. -/
theorem filter_not_isEmpty_eq_any {α : Type} (p : α → Bool) (l : List α) :
    (!(l.filter p).isEmpty) = l.any p := by
  induction l with
  | nil => rfl
  | cons a l ih =>
    by_cases h : p a
    · simp [List.filter_cons, h]
    · simp [List.filter_cons, h, ih]

/-- Helper for the intent theorems: `classify_intent` reports
`hard_mode_triggered` exactly when some hard-mode token is a substring
of the normalized input text. -/
theorem classify_hard_eq (s : String) :
    (classify_intent s).hard_mode_triggered
      = HARD_MODE_TOKENS.any (fun t => substrIn t (normalizeText s)) := by
  rw [← filter_not_isEmpty_eq_any]
  simp only [classify_intent, IntentDecision.make]
  split_ifs with h1 <;> simp [h1]

/-- C10: hard-mode detection is substring containment, not word matching:
for every input, `hard_mode_triggered` is true exactly when some token of
`HARD_MODE_TOKENS` occurs as a contiguous substring of the normalized
text; and the input "good" — which contains no hard-mode token as a
standalone word but contains the token "go" inside a longer word — still
triggers hard mode and a non-chat intent. -/
theorem c10_hard_mode_substring :
    (∀ s, (classify_intent s).hard_mode_triggered
        = HARD_MODE_TOKENS.any (fun t => substrIn t (normalizeText s)))
    ∧ (classify_intent "good").hard_mode_triggered = true
    ∧ (classify_intent "good").intent ≠ Intent.CHAT
    ∧ (wordsOf (normalizeText "good")).all
        (fun w => !(HARD_MODE_TOKENS.contains w)) = true :=
  ⟨classify_hard_eq, by decide, by decide, by decide⟩

/-- C8 (amended): the priority diagnose > code_write > review >
default-exhaustive-review applies only inside the hard-mode branch: for
every input whose normalized text contains a hard-mode token, if it also
contains a diagnose trigger the resulting intent is `DIAGNOSE`, even when
code-write or review triggers also match. -/
theorem c8_diagnose_priority (s : String)
    (hhard : HARD_MODE_TOKENS.any (fun t => substrIn t (normalizeText s)) = true)
    (hdiag : DIAGNOSE_TRIGGERS.any (fun t => substrIn t (normalizeText s)) = true) :
    (classify_intent s).intent = Intent.DIAGNOSE := by
  rw [← filter_not_isEmpty_eq_any] at hhard hdiag
  simp only [classify_intent, IntentDecision.make]
  rw [if_pos hhard, if_pos hdiag]

/-- C8 (counterexample): the input "failing" contains the diagnose
trigger "failing", yet — containing no hard-mode token — it is classified
`CHAT`, not `DIAGNOSE`: diagnose triggers are only consulted inside the
hard-mode branch. -/
theorem c8_counterexample :
    DIAGNOSE_TRIGGERS.contains "failing" = true
    ∧ substrIn "failing" (normalizeText "failing") = true
    ∧ (classify_intent "failing").intent ≠ Intent.DIAGNOSE
    ∧ (classify_intent "failing").intent = Intent.CHAT := by
  refine ⟨by decide, by decide, by decide, by decide⟩

/-- Witness for `c8_diagnose_priority` at the concrete input
"fix the error". -/
theorem c8_diagnose_priority_witness :
    HARD_MODE_TOKENS.any (fun t => substrIn t (normalizeText "fix the error")) = true
    ∧ DIAGNOSE_TRIGGERS.any (fun t => substrIn t (normalizeText "fix the error")) = true
    ∧ (classify_intent "fix the error").intent = Intent.DIAGNOSE :=
  ⟨by decide, by decide, c8_diagnose_priority "fix the error" (by decide) (by decide)⟩

/-! ## Context & constraint store — `roura_agent/agent/context.py` -/

/-- Python dict assignment `m[k] = v` on an association list: replace
the value at the key in place, or append the pair if the key is absent. -/
def setKey {β : Type} (k : String) (v : β) : List (String × β) → List (String × β)
  | [] => [(k, v)]
  | (k', v') :: rest =>
    if k' == k then (k, v) :: rest else (k', v') :: setKey k v rest

/-- Python dict deletion `del m[k]` / absence after delete. -/
def eraseKey {β : Type} (k : String) : List (String × β) → List (String × β)
  | [] => []
  | (k', v') :: rest =>
    if k' == k then eraseKey k rest else (k', v') :: eraseKey k rest

/-- `FileContext` dataclass (read-set entry).  The wall-clock `read_at`
field is omitted: no claim observes it. -/
structure FileContext where
  path : String
  content : String
  lines : Nat
  size : Nat
deriving DecidableEq, Repr

/-- `FileContext.from_path`.  `resolve` is the `Path.resolve` filesystem
oracle; `lines = content.count("\n") + 1`; `size` is the UTF-8 byte
count. -/
def FileContext.from_path (resolve : String → String)
    (path content : String) : FileContext :=
  { path := resolve path
    content := content
    lines := (content.toList.filter (fun c => c == '\n')).length + 1
    size := content.utf8ByteSize }

/-- `AgentContext` from `agent/context.py`, restricted to the fields the
claims observe (conversation history, cwd and project root are carried
alongside in the source and never read by `can_modify`/`add_to_read_set`). -/
structure AgentContext where
  read_set : List (String × FileContext) := []
  tool_call_count : Nat := 0
  max_tool_calls : Nat := 3
deriving Repr

/-- `AgentContext.add_to_read_set`: record a file (keyed by its resolved
absolute path) in the read set. -/
def AgentContext.add_to_read_set (resolve : String → String)
    (ctx : AgentContext) (path content : String) : AgentContext :=
  let resolved := resolve path
  { ctx with
    read_set := setKey resolved
      (FileContext.from_path resolve resolved content) ctx.read_set }

/-- `AgentContext.has_read`. -/
def AgentContext.has_read (resolve : String → String)
    (ctx : AgentContext) (path : String) : Bool :=
  (ctx.read_set.lookup (resolve path)).isSome

/-- `AgentContext.can_modify`: `(allowed, reason)`.  `fsExists` is the
`Path.exists` filesystem oracle, applied — as in the source — to the
resolved path. -/
def AgentContext.can_modify (fsExists : String → Bool)
    (resolve : String → String) (ctx : AgentContext) (path : String) :
    Bool × String :=
  let resolved := resolve path
  if !(fsExists resolved) then
    (true, "New file")
  else if (ctx.read_set.lookup resolved).isNone then
    (false, "File not read: " ++ path ++ ". Read it first before modifying.")
  else
    (true, "File in read set")

/-- Looking up the key just set yields the value just stored. -/
theorem lookup_setKey {β : Type} (k : String) (v : β)
    (m : List (String × β)) : (setKey k v m).lookup k = some v := by
  induction m with
  | nil => simp [setKey, List.lookup]
  | cons a rest ih =>
    obtain ⟨k', v'⟩ := a
    by_cases h : k' = k
    · simp [setKey, h, List.lookup]
    · have hb : (k' == k) = false := by simp [h]
      simp [setKey, hb, List.lookup, ih, BEq.symm_false hb]

/-- C1: read-before-modify gate.  For any filesystem (`fsExists`,
`resolve`) and context: an existing file whose resolved path is not a
read-set key cannot be modified; after `add_to_read_set` the same path
can be modified; a non-existing file can always be modified. -/
theorem c1_read_before_modify (fsExists : String → Bool)
    (resolve : String → String) (ctx : AgentContext) (p content : String) :
    (fsExists (resolve p) = true →
      (ctx.read_set.lookup (resolve p)).isNone = true →
      (ctx.can_modify fsExists resolve p).1 = false)
    ∧ ((ctx.add_to_read_set resolve p content).can_modify fsExists resolve p).1 = true
    ∧ (fsExists (resolve p) = false →
      (ctx.can_modify fsExists resolve p).1 = true) := by
  refine ⟨fun h1 h2 => ?_, ?_, fun h1 => ?_⟩
  · simp [AgentContext.can_modify, h1, h2]
  · by_cases h : fsExists (resolve p) = true
    · simp [AgentContext.can_modify, AgentContext.add_to_read_set, h,
        lookup_setKey]
    · simp only [Bool.not_eq_true] at h
      simp [AgentContext.can_modify, h]
  · simp [AgentContext.can_modify, h1]

/-- Witness for `c1_read_before_modify`: a one-file filesystem where
"a.txt" resolves to "/r/a.txt" and exists while "b.txt" does not. -/
theorem c1_read_before_modify_witness :
    ((fun s => s == "/r/a.txt") ((fun s => "/r/" ++ s) "a.txt") = true
      ∧ (((AgentContext.mk [] 0 3).read_set.lookup
          ((fun s => "/r/" ++ s) "a.txt")).isNone = true)
      ∧ ((AgentContext.mk [] 0 3).can_modify (fun s => s == "/r/a.txt")
          (fun s => "/r/" ++ s) "a.txt").1 = false)
    ∧ (((AgentContext.mk [] 0 3).add_to_read_set (fun s => "/r/" ++ s)
          "a.txt" "hello").can_modify (fun s => s == "/r/a.txt")
          (fun s => "/r/" ++ s) "a.txt").1 = true
    ∧ ((fun s => s == "/r/a.txt") ((fun s => "/r/" ++ s) "b.txt") = false
      ∧ ((AgentContext.mk [] 0 3).can_modify (fun s => s == "/r/a.txt")
          (fun s => "/r/" ++ s) "b.txt").1 = true) :=
  ⟨⟨by decide, by decide,
      (c1_read_before_modify (fun s => s == "/r/a.txt") (fun s => "/r/" ++ s)
        (AgentContext.mk [] 0 3) "a.txt" "hello").1 (by decide) (by decide)⟩,
    (c1_read_before_modify (fun s => s == "/r/a.txt") (fun s => "/r/" ++ s)
        (AgentContext.mk [] 0 3) "a.txt" "hello").2.1,
    ⟨by decide,
      (c1_read_before_modify (fun s => s == "/r/a.txt") (fun s => "/r/" ++ s)
        (AgentContext.mk [] 0 3) "b.txt" "x").2.2 (by decide)⟩⟩

/-! ## Streaming tool-call accumulator — `roura_agent/llm/ollama.py` -/

/-- JSON values, the results of `json.loads`.  The parser itself is the
Python standard library's; it enters the embedding as an oracle of type
`String → Option JsonVal` (`none` = `json.JSONDecodeError`). -/
inductive JsonVal where
  | obj : List (String × JsonVal) → JsonVal
  | arr : List JsonVal → JsonVal
  | str : String → JsonVal
  | num : Int → JsonVal
  | bool : Bool → JsonVal
  | null : JsonVal

/-- The `function` sub-dict of one streamed tool-call fragment:
optional `name` and `arguments` deltas. -/
structure FragFunc where
  name : Option String
  arguments : Option String

/-- One element of the `raw_calls` list handled by
`_accumulate_tool_calls`: a partial tool-call fragment.  `none` models
an absent dict key. -/
structure ToolCallFrag where
  index : Option Nat
  id : Option String
  typ : Option String
  func : Option FragFunc

/-- One value of the accumulator buffer
(`index → {id, type, function: {name, arguments}}`). -/
structure BufEntry where
  id : String
  typ : String
  name : String
  arguments : String
deriving DecidableEq, Repr

/-- A finalized `ToolCall`. -/
structure ToolCall where
  id : String
  name : String
  arguments : JsonVal

/-- Update the value stored at a key of an association list in place. -/
def updateKey {α β : Type} [BEq α] (k : α) (f : β → β) :
    List (α × β) → List (α × β)
  | [] => []
  | (k', v) :: rest =>
    if k' == k then (k', f v) :: rest else (k', v) :: updateKey k f rest

/-- The per-fragment delta merge of `_accumulate_tool_calls`: append the
`name` and `arguments` deltas when truthy (Python `if name := ...`). -/
def appendDelta (e : BufEntry) (f : FragFunc) : BufEntry :=
  let e1 := match f.name with
    | some n => if n.isEmpty then e else { e with name := e.name ++ n }
    | none => e
  match f.arguments with
  | some a => if a.isEmpty then e1 else { e1 with arguments := e1.arguments ++ a }
  | none => e1

/-- One iteration of the `for tc in raw_calls` loop of
`_accumulate_tool_calls`: create the entry on first sight of the index
(id/type captured from that fragment, empty name/arguments), then merge
the fragment's function deltas. -/
def accumulateStep (buffer : List (Nat × BufEntry)) (tc : ToolCallFrag) :
    List (Nat × BufEntry) :=
  let idx := tc.index.getD 0
  let buffer1 :=
    if (buffer.lookup idx).isSome then buffer
    else buffer ++ [(idx,
      { id := tc.id.getD "", typ := tc.typ.getD "function",
        name := "", arguments := "" })]
  match tc.func with
  | some f => updateKey idx (fun e => appendDelta e f) buffer1
  | none => buffer1

/-- `OllamaProvider._accumulate_tool_calls`. -/
def accumulate_tool_calls (raw_calls : List ToolCallFrag)
    (buffer : List (Nat × BufEntry)) : List (Nat × BufEntry) :=
  raw_calls.foldl accumulateStep buffer

/-- Finalize one buffer entry, exactly as the loop body of
`_build_tool_calls`: parse the arguments buffer (empty string or parse
failure gives `{}`), synthesize `call_<index>` when the id is missing or
empty. -/
def finalizeEntry (parse : String → Option JsonVal) (idx : Nat)
    (e : BufEntry) : ToolCall :=
  let args := if e.arguments.isEmpty then JsonVal.obj []
    else match parse e.arguments with
      | some v => v
      | none => JsonVal.obj []
  let tc_id := if e.id.isEmpty then "call_" ++ toString idx else e.id
  { id := tc_id, name := e.name, arguments := args }

/-- `OllamaProvider._build_tool_calls`: iterate over the buffer's keys in
ascending order and finalize each entry. -/
def build_tool_calls (parse : String → Option JsonVal)
    (buffer : List (Nat × BufEntry)) : List ToolCall :=
  (List.insertionSort (· ≤ ·) (buffer.map Prod.fst)).filterMap
    (fun idx => (buffer.lookup idx).map (finalizeEntry parse idx))

/-- Concatenation of a list of string deltas. -/
def strJoin : List String → String
  | [] => ""
  | s :: rest => s ++ strJoin rest

/-- A fragment carrying only the call's id (the first chunk of a
streamed call). -/
def headFrag (idx : Nat) (id : String) : ToolCallFrag :=
  ⟨some idx, some id, none, none⟩

/-- A fragment carrying one name delta. -/
def nameFrag (idx : Nat) (s : String) : ToolCallFrag :=
  ⟨some idx, none, none, some ⟨some s, none⟩⟩

/-- A fragment carrying one arguments delta. -/
def argFrag (idx : Nat) (s : String) : ToolCallFrag :=
  ⟨some idx, none, none, some ⟨none, some s⟩⟩

/-- A single fragment carrying the whole call at once. -/
def wholeFrag (idx : Nat) (id name args : String) : ToolCallFrag :=
  ⟨some idx, some id, none, some ⟨some name, some args⟩⟩

theorem appendDelta_name (e : BufEntry) (n : String) :
    appendDelta e ⟨some n, none⟩ = { e with name := e.name ++ n } := by
  by_cases h : n.isEmpty
  · rw [String.isEmpty_iff] at h
    subst h
    simp [appendDelta, String.append_empty]
  · simp [appendDelta, h]

theorem appendDelta_arg (e : BufEntry) (a : String) :
    appendDelta e ⟨none, some a⟩ = { e with arguments := e.arguments ++ a } := by
  by_cases h : a.isEmpty
  · rw [String.isEmpty_iff] at h
    subst h
    simp [appendDelta, String.append_empty]
  · simp [appendDelta, h]

theorem appendDelta_both (e : BufEntry) (n a : String) :
    appendDelta e ⟨some n, some a⟩
      = { e with name := e.name ++ n, arguments := e.arguments ++ a } := by
  by_cases hn : n.isEmpty <;> by_cases ha : a.isEmpty
  all_goals
    first
    | (rw [String.isEmpty_iff] at hn ha
       subst hn
       subst ha
       simp [appendDelta, String.append_empty])
    | (rw [String.isEmpty_iff] at hn
       subst hn
       simp [appendDelta, ha, String.append_empty])
    | (rw [String.isEmpty_iff] at ha
       subst ha
       simp [appendDelta, hn, String.append_empty])
    | simp [appendDelta, hn, ha]

theorem accumStep_nameFrag (idx : Nat) (e : BufEntry) (s : String) :
    accumulateStep [(idx, e)] (nameFrag idx s)
      = [(idx, { e with name := e.name ++ s })] := by
  simp [accumulateStep, nameFrag, List.lookup, updateKey, appendDelta_name]

theorem accumStep_argFrag (idx : Nat) (e : BufEntry) (s : String) :
    accumulateStep [(idx, e)] (argFrag idx s)
      = [(idx, { e with arguments := e.arguments ++ s })] := by
  simp [accumulateStep, argFrag, List.lookup, updateKey, appendDelta_arg]

/-- Feeding a sequence of name deltas concatenates them onto the entry's
name buffer — never overwrites it. -/
theorem accum_nameFrags (idx : Nat) (parts : List String) (e : BufEntry) :
    accumulate_tool_calls (parts.map (nameFrag idx)) [(idx, e)]
      = [(idx, { e with name := e.name ++ strJoin parts })] := by
  induction parts generalizing e with
  | nil => simp [accumulate_tool_calls, strJoin, String.append_empty]
  | cons p ps ih =>
    simp only [List.map_cons, accumulate_tool_calls, List.foldl_cons]
    rw [accumStep_nameFrag]
    have h := ih { e with name := e.name ++ p }
    simp only [accumulate_tool_calls] at h
    rw [h, strJoin, ← String.append_assoc]

/-- Feeding a sequence of arguments deltas concatenates them onto the
entry's arguments buffer — never overwrites it. -/
theorem accum_argFrags (idx : Nat) (parts : List String) (e : BufEntry) :
    accumulate_tool_calls (parts.map (argFrag idx)) [(idx, e)]
      = [(idx, { e with arguments := e.arguments ++ strJoin parts })] := by
  induction parts generalizing e with
  | nil => simp [accumulate_tool_calls, strJoin, String.append_empty]
  | cons p ps ih =>
    simp only [List.map_cons, accumulate_tool_calls, List.foldl_cons]
    rw [accumStep_argFrag]
    have h := ih { e with arguments := e.arguments ++ p }
    simp only [accumulate_tool_calls] at h
    rw [h, strJoin, ← String.append_assoc]

/-- C5: chunk-split invariance.  Splitting a tool call's name and
arguments JSON into arbitrary delta lists and feeding the fragments
through the accumulator, then finalizing, yields exactly the result of
feeding the whole call as one chunk — for every JSON parser oracle. -/
theorem c5_chunk_split_invariance (parse : String → Option JsonVal)
    (idx : Nat) (id name args : String)
    (nameParts argParts : List String)
    (hn : strJoin nameParts = name) (ha : strJoin argParts = args) :
    build_tool_calls parse
      (accumulate_tool_calls
        (headFrag idx id :: (nameParts.map (nameFrag idx)
          ++ argParts.map (argFrag idx))) [])
      = build_tool_calls parse
          (accumulate_tool_calls [wholeFrag idx id name args] []) := by
  have hL : accumulate_tool_calls
      (headFrag idx id :: (nameParts.map (nameFrag idx)
        ++ argParts.map (argFrag idx))) []
      = [(idx, ⟨id, "function", name, args⟩)] := by
    simp only [accumulate_tool_calls, List.foldl_cons, List.foldl_append]
    have h0 : accumulateStep [] (headFrag idx id)
        = [(idx, ⟨id, "function", "", ""⟩)] := by
      simp [accumulateStep, headFrag, List.lookup]
    rw [h0]
    have h1 := accum_nameFrags idx nameParts ⟨id, "function", "", ""⟩
    simp only [accumulate_tool_calls] at h1
    rw [h1]
    have h2 := accum_argFrags idx argParts
      ⟨id, "function", "" ++ strJoin nameParts, ""⟩
    simp only [accumulate_tool_calls] at h2
    rw [h2, hn, ha]
    simp [String.empty_append]
  have hR : accumulate_tool_calls [wholeFrag idx id name args] []
      = [(idx, ⟨id, "function", name, args⟩)] := by
    simp only [accumulate_tool_calls, List.foldl_cons, List.foldl_nil]
    simp [accumulateStep, wholeFrag, List.lookup, updateKey,
      appendDelta_both, String.empty_append]
  rw [hL, hR]

/-- Witness for `c5_chunk_split_invariance`: the call
`{id := "c1", name := "fs.read", arguments := "{\x22p\x22:1}"}` split into
two name deltas and three argument deltas. -/
theorem c5_chunk_split_invariance_witness :
    strJoin ["fs.", "read"] = "fs.read"
    ∧ strJoin ["ab", "cd", "e"] = "abcde"
    ∧ build_tool_calls (fun _ => none)
        (accumulate_tool_calls
          (headFrag 2 "c1" :: (["fs.", "read"].map (nameFrag 2)
            ++ ["ab", "cd", "e"].map (argFrag 2))) [])
        = build_tool_calls (fun _ => none)
            (accumulate_tool_calls [wholeFrag 2 "c1" "fs.read" "abcde"] []) :=
  ⟨by decide, by decide,
    c5_chunk_split_invariance (fun _ => none) 2 "c1" "fs.read" "abcde"
      ["fs.", "read"] ["ab", "cd", "e"] (by decide) (by decide)⟩

theorem lookup_isSome_of_mem_fst {α β : Type} [BEq α] [LawfulBEq α]
    (m : List (α × β)) (k : α) (h : k ∈ m.map Prod.fst) :
    (m.lookup k).isSome = true := by
  induction m with
  | nil => simp at h
  | cons a rest ih =>
    obtain ⟨k', v'⟩ := a
    simp only [List.map_cons, List.mem_cons] at h
    by_cases hk : k = k'
    · simp [List.lookup, hk]
    · have : k ∈ rest.map Prod.fst := by
        rcases h with h | h
        · exact absurd h hk
        · exact h
      have hb : (k == k') = false := by simp [hk]
      simp [List.lookup, hb, ih this]

theorem mem_fst_of_lookup_some {α β : Type} [BEq α] [LawfulBEq α]
    (m : List (α × β)) (k : α) (e : β) (h : m.lookup k = some e) :
    k ∈ m.map Prod.fst := by
  induction m with
  | nil => simp [List.lookup] at h
  | cons a rest ih =>
    obtain ⟨k', v'⟩ := a
    by_cases hk : (k == k') = true
    · simp only [List.map_cons, List.mem_cons]
      exact Or.inl (by simpa using hk)
    · rw [Bool.not_eq_true] at hk
      simp only [List.lookup, hk] at h
      simp only [List.map_cons, List.mem_cons]
      exact Or.inr (ih h)

theorem length_filterMap_of_isSome {α β : Type} (f : α → Option β)
    (l : List α) (h : ∀ a ∈ l, (f a).isSome = true) :
    (l.filterMap f).length = l.length := by
  induction l with
  | nil => rfl
  | cons a rest ih =>
    have ha := h a (List.mem_cons_self a rest)
    obtain ⟨b, hb⟩ := Option.isSome_iff_exists.mp ha
    rw [List.filterMap_cons, hb]
    simp only [List.length_cons]
    rw [ih (fun x hx => h x (List.mem_cons_of_mem a hx))]

/-- C6: graceful finalization.  For every parser oracle and accumulated
buffer: every buffer entry is finalized (the output has one `ToolCall`
per entry — no entry aborts the batch); the entry stored at index `idx`
yields a call whose id is the stored id, or `call_<idx>` when that id is
empty (the backend omitted it); an empty or unparseable arguments buffer
yields `{}` while a parsed value is passed through. -/
theorem c6_graceful_finalization (parse : String → Option JsonVal)
    (buffer : List (Nat × BufEntry)) (idx : Nat) (e : BufEntry)
    (hmem : buffer.lookup idx = some e) :
    (build_tool_calls parse buffer).length = buffer.length
    ∧ finalizeEntry parse idx e ∈ build_tool_calls parse buffer
    ∧ (finalizeEntry parse idx e).id
        = (if e.id.isEmpty then "call_" ++ toString idx else e.id)
    ∧ (finalizeEntry parse idx e).name = e.name
    ∧ (e.arguments.isEmpty = true ∨ parse e.arguments = none →
        (finalizeEntry parse idx e).arguments = JsonVal.obj [])
    ∧ (∀ v, e.arguments.isEmpty = false → parse e.arguments = some v →
        (finalizeEntry parse idx e).arguments = v) := by
  have hperm := List.perm_insertionSort (· ≤ ·) (buffer.map Prod.fst)
  refine ⟨?_, ?_, rfl, rfl, ?_, ?_⟩
  · rw [build_tool_calls,
      length_filterMap_of_isSome _ _ (fun k hk => ?_), hperm.length_eq,
      List.length_map]
    have : k ∈ buffer.map Prod.fst := hperm.mem_iff.mp hk
    have := lookup_isSome_of_mem_fst buffer k this
    simpa using this
  · rw [build_tool_calls, List.mem_filterMap]
    refine ⟨idx, ?_, by rw [hmem]; rfl⟩
    exact hperm.mem_iff.mpr (mem_fst_of_lookup_some buffer idx e hmem)
  · intro h
    rcases h with h | h
    · simp [finalizeEntry, h]
    · by_cases he : e.arguments.isEmpty <;> simp [finalizeEntry, he, h]
  · intro v he hv
    simp [finalizeEntry, he, hv]

/-- Witness for `c6_graceful_finalization`: a buffer holding one entry
with an empty id and an unparseable arguments buffer, under a parser
that rejects everything. -/
theorem c6_graceful_finalization_witness :
    ([(0, BufEntry.mk "" "function" "fs.write" "oops")].lookup 0
        = some (BufEntry.mk "" "function" "fs.write" "oops"))
    ∧ (build_tool_calls (fun _ => none)
        [(0, BufEntry.mk "" "function" "fs.write" "oops")]).length = 1
    ∧ (finalizeEntry (fun _ => none) 0
        (BufEntry.mk "" "function" "fs.write" "oops")).id = "call_0"
    ∧ (finalizeEntry (fun _ => none) 0
        (BufEntry.mk "" "function" "fs.write" "oops")).arguments
        = JsonVal.obj [] := by
  have h := c6_graceful_finalization (fun _ => none)
    [(0, BufEntry.mk "" "function" "fs.write" "oops")] 0
    (BufEntry.mk "" "function" "fs.write" "oops") (by decide)
  refine ⟨by decide, h.1, ?_, h.2.2.2.2.1 (Or.inr rfl)⟩
  rw [h.2.2.1]
  decide

/-! ## Agent turn tool dispatch — `roura_agent/agent/loop.py`

The tool-execution section of `AgentLoop._process_turn`: for each tool
call of the model response, the per-turn counter is incremented first;
if it now exceeds `config.max_tool_calls_per_turn` the remaining calls
of the batch are abandoned (`break`); otherwise a rejected risky call is
recorded and skipped (`continue`) and an approved call is dispatched to
`_execute_tool`.  A turn (`AgentLoop.process`) runs any number of such
batches, one per model iteration, against the same counter.  `executed`
records the calls actually dispatched; `results` records the
per-call tool-result messages (`false` = user-rejected marker). -/

/-- Turn-scoped dispatch state: the context's `tool_call_count` plus
instrumentation of what was dispatched. -/
structure TurnState where
  tool_call_count : Nat
  executed : List ToolCall
  results : List (String × Bool)

/-- The `for tool_call in response.tool_calls` loop of `_process_turn`.
`needsApproval` is `_needs_approval` (risk lookup in the tool registry)
and `approve` is the interactive `_request_approval` — both oracles. -/
def dispatchToolCalls (k : Nat) (needsApproval approve : ToolCall → Bool) :
    List ToolCall → TurnState → TurnState
  | [], st => st
  | tc :: rest, st =>
    let st1 := { st with tool_call_count := st.tool_call_count + 1 }
    if k < st1.tool_call_count then st1
    else if needsApproval tc && !approve tc then
      dispatchToolCalls k needsApproval approve rest
        { st1 with results := st1.results ++ [(tc.id, false)] }
    else
      dispatchToolCalls k needsApproval approve rest
        { st1 with executed := st1.executed ++ [tc],
                   results := st1.results ++ [(tc.id, true)] }

/-- A whole turn: the batches requested by successive model responses,
dispatched in order against one counter (the counter is reset only at
turn start, never between batches). -/
def processTurnBatches (k : Nat) (na ap : ToolCall → Bool)
    (batches : List (List ToolCall)) (st : TurnState) : TurnState :=
  batches.foldl (fun s b => dispatchToolCalls k na ap b s) st

theorem dispatch_bound (k : Nat) (na ap : ToolCall → Bool) :
    ∀ (calls : List ToolCall) (st : TurnState),
    st.executed.length ≤ st.tool_call_count →
    st.executed.length ≤ k →
    (dispatchToolCalls k na ap calls st).executed.length
        ≤ (dispatchToolCalls k na ap calls st).tool_call_count
    ∧ (dispatchToolCalls k na ap calls st).executed.length ≤ k := by
  intro calls
  induction calls with
  | nil => exact fun st h1 h2 => ⟨h1, h2⟩
  | cons tc rest ih =>
    intro st h1 h2
    rw [dispatchToolCalls]
    by_cases hk : k < st.tool_call_count + 1
    · simp only [hk, if_pos]
      exact ⟨Nat.le_succ_of_le h1, h2⟩
    · simp only [hk, if_neg, if_false]
      by_cases hrej : (na tc && !ap tc) = true
      · simp only [hrej, if_pos]
        exact ih _ (Nat.le_succ_of_le h1) h2
      · simp only [hrej, if_neg, Bool.false_eq_true]
        refine ih _ ?_ ?_
        · simp only [List.length_append, List.length_cons, List.length_nil]
          omega
        · simp only [List.length_append, List.length_cons, List.length_nil]
          omega

/-- C2: per-turn tool-call budget.  For every per-turn ceiling `k`,
approval oracle, starting counter value and any sequence of tool-call
batches the model may request across the turn's iterations, the number
of calls actually dispatched to a tool never exceeds `k`. -/
theorem c2_tool_call_budget (k : Nat) (na ap : ToolCall → Bool)
    (batches : List (List ToolCall)) (c0 : Nat) :
    (processTurnBatches k na ap batches ⟨c0, [], []⟩).executed.length ≤ k := by
  suffices h : ∀ (bs : List (List ToolCall)) (st : TurnState),
      st.executed.length ≤ st.tool_call_count → st.executed.length ≤ k →
      (processTurnBatches k na ap bs st).executed.length
          ≤ (processTurnBatches k na ap bs st).tool_call_count
      ∧ (processTurnBatches k na ap bs st).executed.length ≤ k by
    exact (h batches ⟨c0, [], []⟩ (Nat.zero_le _) (Nat.zero_le _)).2
  intro bs
  induction bs with
  | nil => exact fun st h1 h2 => ⟨h1, h2⟩
  | cons b rest ih =>
    intro st h1 h2
    simp only [processTurnBatches, List.foldl_cons]
    have hb := dispatch_bound k na ap b st h1 h2
    exact ih _ hb.1 hb.2

/-! ## Verification loop — `roura_agent/execution_loop.py`

`model_call_fn` (an arbitrary Python callable that may raise) becomes an
oracle `String → Except String ModelOutput`; `run_commands` (subprocess
execution against the real world) becomes an oracle `Nat → ExecOutcome`
giving the outcome of the command sequence at each iteration; the
filesystem touched by `apply_edits` is a functional map threaded through
the loop.  Wall-clock durations are omitted.  Two instrumentation fields
(`unblocker_calls`, `model_contexts`) record, without influencing any
control flow, how often `unblocker_fn` was called and which context
string each `model_call_fn` invocation received. -/

/-- `ExecutionStatus` enum. -/
inductive ExecutionStatus where
  | SUCCESS
  | FAILURE
  | TIMEOUT
  | STALLED
  | MAX_ITERATIONS
deriving DecidableEq, Repr

/-- The observable outcome of one `run_commands` call: the fields of
`ExecutionResult` the loop reads. -/
structure ExecOutcome where
  success : Bool
  exit_code : Int
  failure_signature : Option String
  stdout_tail : String
  stderr_tail : String
deriving DecidableEq, Repr

/-- `FileEdit` dataclass. -/
structure FileEdit where
  path : String
  action : String
  content : Option String := none
  old_content : Option String := none
deriving DecidableEq, Repr

/-- One entry of a model output's `edits` list (a Python dict with
optional keys). -/
structure EditData where
  path : Option String := none
  action : Option String := none
  content : Option String := none
  old_content : Option String := none

/-- The model-output dict consumed by `_parse_edits`: optional `edits`
list and optional `files` dict (in insertion order). -/
structure ModelOutput where
  edits : Option (List EditData) := none
  files : Option (List (String × Option String)) := none

/-- Python truthiness of an optional string (`None` and `""` falsy). -/
def truthyOptStr : Option String → Bool
  | none => false
  | some s => !s.isEmpty

/-- `_parse_edits`. -/
def parse_edits (m : ModelOutput) : List FileEdit :=
  (match m.edits with
   | none => []
   | some l => l.map (fun d =>
      { path := d.path.getD "", action := d.action.getD "modify",
        content := d.content, old_content := d.old_content }))
  ++ (match m.files with
      | none => []
      | some l => l.map (fun pc =>
          { path := pc.1,
            action := if truthyOptStr pc.2 then "create" else "delete",
            content := pc.2 }))

/-- The loop's view of the project tree: path → content. -/
abbrev Fs := List (String × String)

/-- `apply_edits` over the functional filesystem (the temp-file-then-
rename mechanics collapse to a map update; per-edit I/O exceptions,
caught and logged in the source, do not arise in the functional model).
Returns the new tree and the list of modified paths. -/
def apply_edits (edits : List FileEdit) (fs : Fs) : Fs × List String :=
  edits.foldl (fun acc e =>
    if e.action == "delete" then
      if (acc.1.lookup e.path).isSome then
        (eraseKey e.path acc.1, acc.2 ++ [e.path])
      else acc
    else if e.action == "create" || e.action == "modify" then
      match e.content with
      | none => acc
      | some c => (setKey e.path c acc.1, acc.2 ++ [e.path])
    else acc) (fs, [])

/-- `LoopIteration` dataclass (minus the wall-clock `duration`). -/
structure LoopIteration where
  iteration : Nat
  edits_applied : Nat
  commands_run : List String
  success : Bool
  failure_signature : Option String
deriving DecidableEq, Repr

/-- `VerificationResult` (minus `total_duration`), plus the two
instrumentation fields described above. -/
structure VerificationResult where
  status : ExecutionStatus
  iterations : List LoopIteration
  final_result : Option ExecOutcome
  edits_total : Nat
  unblocker_invoked : Bool
  message : String
  unblocker_calls : Nat
  model_contexts : List String
deriving DecidableEq, Repr

/-- The oracles and fixed inputs of one `verification_loop` run.
`commands` is the (provided or auto-detected) command list; only its
recording in iteration records is visible to the embedding, since
execution outcomes come from `runFn`. -/
structure LoopEnv where
  jobPrompt : String
  modelFn : String → Except String ModelOutput
  runFn : Nat → ExecOutcome
  unblockerFn : Option (String → String)
  commands : List String
  fs0 : Fs

/-- Mutable accumulator of the `for i in range(1, max_iterations + 1)`
loop body. -/
structure LoopAcc where
  iterations : List LoopIteration
  edits_total : Nat
  unblocker_invoked : Bool
  unblocker_calls : Nat
  model_contexts : List String
deriving Repr

/-- Python `s[-n:]`. -/
def strTakeRight (n : Nat) (s : String) : String :=
  ⟨(s.toList.reverse.take n).reverse⟩

/-- Python f-string interpolation of an `Optional[str]`. -/
def pyShowOptStr : Option String → String
  | none => "None"
  | some s => s

/-- The generic failure context assigned at the bottom of every
non-success iteration ("ITERATION i FAILED: ..."). -/
def failureContext (jobPrompt : String) (i : Nat) (exec : ExecOutcome) :
    String :=
  jobPrompt ++ "\n\nITERATION " ++ toString i ++ " FAILED:\nExit code: "
    ++ toString exec.exit_code ++ "\nFailure signature: "
    ++ pyShowOptStr exec.failure_signature
    ++ "\n\nSTDERR:\n" ++ strTakeRight 2000 exec.stderr_tail
    ++ "\n\nSTDOUT:\n" ++ strTakeRight 1000 exec.stdout_tail
    ++ "\n\nFix the issue and try again. Focus on the error above."

/-- The context assigned in the unblocker branch ("UNBLOCKER
DIAGNOSIS: ...").  In the source this assignment is immediately
overwritten by the generic failure context before the next model call. -/
def unblockerContext (jobPrompt diag stderrTail : String) : String :=
  jobPrompt ++ "\n\nUNBLOCKER DIAGNOSIS:\n" ++ diag
    ++ "\n\nLAST ERROR:\n" ++ stderrTail

/-- Assemble the result from the accumulator. -/
def mkResult (status : ExecutionStatus) (acc : LoopAcc)
    (finalR : Option ExecOutcome) (msg : String) : VerificationResult :=
  { status := status, iterations := acc.iterations, final_result := finalR,
    edits_total := acc.edits_total,
    unblocker_invoked := acc.unblocker_invoked, message := msg,
    unblocker_calls := acc.unblocker_calls,
    model_contexts := acc.model_contexts }

/-- The body of `verification_loop`'s `for` loop, recursing on the
remaining iteration budget (`remaining = max_iterations - i + 1`). -/
def verificationGo (env : LoopEnv) :
    Nat → Nat → Fs → List String → String → LoopAcc → VerificationResult
  | 0, _, _, _, _, acc => mkResult .MAX_ITERATIONS acc none ""
  | remaining + 1, i, fs, history, context, acc =>
    let acc0 := { acc with model_contexts := acc.model_contexts ++ [context] }
    match env.modelFn context with
    | .error e => mkResult .FAILURE acc0 none ("Model call failed: " ++ e)
    | .ok modelOut =>
      let edits := parse_edits modelOut
      let applied := apply_edits edits fs
      let fs1 := applied.1
      let modified := applied.2
      let exec := env.runFn i
      let iter : LoopIteration :=
        { iteration := i, edits_applied := modified.length,
          commands_run := env.commands, success := exec.success,
          failure_signature := exec.failure_signature }
      let acc1 := { acc0 with iterations := acc0.iterations ++ [iter],
                              edits_total := acc0.edits_total + modified.length }
      if exec.success then
        mkResult .SUCCESS acc1 (some exec)
          ("Verification passed after " ++ toString i ++ " iteration(s)")
      else if truthyOptStr exec.failure_signature then
        let sig := exec.failure_signature.getD ""
        if history.contains sig then
          match env.unblockerFn with
          | some ub =>
            let acc2 := { acc1 with unblocker_invoked := true,
                                    unblocker_calls := acc1.unblocker_calls + 1 }
            let _contextU := unblockerContext env.jobPrompt (ub sig)
              exec.stderr_tail
            -- dead in the source too: the generic failure context below
            -- overwrites the unblocker context before the next model call
            verificationGo env remaining (i + 1) fs1 history
              (failureContext env.jobPrompt i exec) acc2
          | none =>
            mkResult .STALLED acc1 (some exec)
              ("Stalled on repeated failure: " ++ sig)
        else
          verificationGo env remaining (i + 1) fs1 (history ++ [sig])
            (failureContext env.jobPrompt i exec) acc1
      else
        verificationGo env remaining (i + 1) fs1 history
          (failureContext env.jobPrompt i exec) acc1

/-- The initial accumulator. -/
def accInit : LoopAcc :=
  { iterations := [], edits_total := 0, unblocker_invoked := false,
    unblocker_calls := 0, model_contexts := [] }

/-- `verification_loop`: run the bounded loop, then apply the
post-processing of the `MAX_ITERATIONS` case. -/
def verification_loop (env : LoopEnv) (max_iterations : Nat) :
    VerificationResult :=
  let r := verificationGo env max_iterations 1 env.fs0 [] env.jobPrompt accInit
  if r.status = .MAX_ITERATIONS then
    { r with
      message := "Max iterations (" ++ toString max_iterations
        ++ ") reached without success"
      final_result := match r.iterations.getLast? with
        | some it => some { success := false, exit_code := -1,
                            failure_signature := it.failure_signature,
                            stdout_tail := "", stderr_tail := "" }
        | none => none }
  else r

/-- The post-processing wrapper only rewrites `message` and
`final_result`: every other field of the loop's result survives it. -/
theorem verification_loop_fields (env : LoopEnv) (N : Nat) :
    (verification_loop env N).status
        = (verificationGo env N 1 env.fs0 [] env.jobPrompt accInit).status
    ∧ (verification_loop env N).iterations
        = (verificationGo env N 1 env.fs0 [] env.jobPrompt accInit).iterations
    ∧ (verification_loop env N).unblocker_calls
        = (verificationGo env N 1 env.fs0 [] env.jobPrompt accInit).unblocker_calls
    ∧ (verification_loop env N).unblocker_invoked
        = (verificationGo env N 1 env.fs0 [] env.jobPrompt accInit).unblocker_invoked
    ∧ (verification_loop env N).model_contexts
        = (verificationGo env N 1 env.fs0 [] env.jobPrompt accInit).model_contexts := by
  unfold verification_loop
  dsimp only
  split <;> exact ⟨rfl, rfl, rfl, rfl, rfl⟩

/-- Each pass through the loop body consumes one unit of the remaining
budget and appends at most one iteration record. -/
theorem go_iterations_le (env : LoopEnv) :
    ∀ (remaining i : Nat) (fs : Fs) (history : List String)
      (context : String) (acc : LoopAcc),
    (verificationGo env remaining i fs history context acc).iterations.length
      ≤ acc.iterations.length + remaining := by
  intro remaining
  induction remaining with
  | zero =>
    intro i fs history context acc
    simp [verificationGo, mkResult]
  | succ r ih =>
    intro i fs history context acc
    rw [verificationGo]
    dsimp only
    split
    · simp only [mkResult]
      omega
    · split_ifs with h1 h2 h3
      · simp only [mkResult, List.length_append, List.length_cons,
          List.length_nil]
        omega
      · split
        · refine le_trans (ih _ _ _ _ _) ?_
          simp only [List.length_append, List.length_cons, List.length_nil]
          omega
        · simp only [mkResult, List.length_append, List.length_cons,
            List.length_nil]
          omega
      · refine le_trans (ih _ _ _ _ _) ?_
        simp only [List.length_append, List.length_cons, List.length_nil]
        omega
      · refine le_trans (ih _ _ _ _ _) ?_
        simp only [List.length_append, List.length_cons, List.length_nil]
        omega

/-- The iteration records carry consecutive indices `1, 2, …`: every
continuing path advances the counter by exactly one. -/
theorem go_iterations_map (env : LoopEnv) :
    ∀ (remaining i : Nat) (fs : Fs) (history : List String)
      (context : String) (acc : LoopAcc),
    acc.iterations.map (fun it => it.iteration)
        = List.range' 1 acc.iterations.length →
    i = acc.iterations.length + 1 →
    (verificationGo env remaining i fs history context acc).iterations.map
        (fun it => it.iteration)
      = List.range' 1
          (verificationGo env remaining i fs history context acc).iterations.length := by
  intro remaining
  induction remaining with
  | zero =>
    intro i fs history context acc hmap hi
    simpa [verificationGo, mkResult] using hmap
  | succ r ih =>
    intro i fs history context acc hmap hi
    have hstep : (acc.iterations.map (fun it => it.iteration)) ++ [i]
        = List.range' 1 (acc.iterations.length + 1) := by
      rw [hmap, hi, List.range'_concat]
      simp [Nat.add_comm]
    rw [verificationGo]
    dsimp only
    split
    · simpa [mkResult] using hmap
    · split_ifs with h1 h2 h3
      · simpa [mkResult, List.length_append] using hstep
      · split
        · refine ih _ _ _ _ _ ?_ ?_
          · simpa [List.length_append] using hstep
          · simp [List.length_append]
            omega
        · simpa [mkResult, List.length_append] using hstep
      · refine ih _ _ _ _ _ ?_ ?_
        · simpa [List.length_append] using hstep
        · simp [List.length_append]
          omega
      · refine ih _ _ _ _ _ ?_ ?_
        · simpa [List.length_append] using hstep
        · simp [List.length_append]
          omega

/-- C3: termination and bounded recording.  `verification_loop` is a
total function (structural recursion on the iteration budget); for every
environment — job prompt, model oracle, command-run oracle, unblocker
configuration — and every `max_iterations = N` it records at most `N`
iterations, and the recorded iteration counters are exactly `1, 2, …`:
each non-terminal pass advances the counter by one toward the bound. -/
theorem c3_verification_loop_terminates (env : LoopEnv) (N : Nat) :
    (verification_loop env N).iterations.length ≤ N
    ∧ (verification_loop env N).iterations.map (fun it => it.iteration)
        = List.range' 1 (verification_loop env N).iterations.length := by
  rw [(verification_loop_fields env N).2.1]
  constructor
  · simpa [accInit] using go_iterations_le env N 1 env.fs0 [] env.jobPrompt accInit
  · exact go_iterations_map env N 1 env.fs0 [] env.jobPrompt accInit
      (by simp [accInit]) (by simp [accInit])

/-- C4: stall at first opportunity.  If no unblocker is configured, the
model oracle always returns (does not raise), and every command run
fails with one and the same (truthy) failure signature, then for every
`max_iterations = N ≥ 2` the loop terminates `STALLED` at iteration 2,
with exactly two recorded iterations. -/
theorem c4_stall_at_iteration_two (env : LoopEnv) (N : Nat) (s : String)
    (hN : 2 ≤ N)
    (hub : env.unblockerFn = none)
    (hm : ∀ c, ∃ mo, env.modelFn c = Except.ok mo)
    (hr : ∀ i, (env.runFn i).success = false
      ∧ (env.runFn i).failure_signature = some s)
    (hs : s.isEmpty = false) :
    (verification_loop env N).status = ExecutionStatus.STALLED
    ∧ (verification_loop env N).iterations.length = 2 := by
  obtain ⟨n, rfl⟩ : ∃ n, N = n + 2 := ⟨N - 2, by omega⟩
  rw [(verification_loop_fields env (n + 2)).1,
    (verification_loop_fields env (n + 2)).2.1]
  obtain ⟨mo1, hmo1⟩ := hm env.jobPrompt
  show (verificationGo env (n + 1 + 1) 1 env.fs0 [] env.jobPrompt accInit).status
      = ExecutionStatus.STALLED
    ∧ (verificationGo env (n + 1 + 1) 1 env.fs0 [] env.jobPrompt
        accInit).iterations.length = 2
  rw [verificationGo]
  dsimp only
  rw [hmo1]
  dsimp only
  rw [(hr 1).1, (hr 1).2]
  simp only [truthyOptStr, hs, Bool.not_false, Bool.false_eq_true, if_false,
    if_true, Option.getD_some, List.contains_nil, List.nil_append]
  obtain ⟨mo2, hmo2⟩ := hm (failureContext env.jobPrompt 1 (env.runFn 1))
  rw [verificationGo]
  dsimp only
  rw [hmo2]
  dsimp only
  rw [(hr 2).1, (hr 2).2]
  simp only [truthyOptStr, hs, Bool.not_false, Bool.false_eq_true, if_false,
    if_true, Option.getD_some, List.contains_cons, List.contains_nil,
    beq_self_eq_true, Bool.true_or, hub]
  exact ⟨rfl, rfl⟩

/-- Witness for `c4_stall_at_iteration_two`: a concrete environment
whose commands always fail with signature "E", no unblocker, `N = 3`. -/
theorem c4_stall_at_iteration_two_witness :
    ((LoopEnv.mk "job" (fun _ => Except.ok ⟨none, none⟩)
        (fun _ => ⟨false, 1, some "E", "", ""⟩) none ["make test"] []).unblockerFn
      = none)
    ∧ (verification_loop
        (LoopEnv.mk "job" (fun _ => Except.ok ⟨none, none⟩)
          (fun _ => ⟨false, 1, some "E", "", ""⟩) none ["make test"] [])
        3).status = ExecutionStatus.STALLED
    ∧ (verification_loop
        (LoopEnv.mk "job" (fun _ => Except.ok ⟨none, none⟩)
          (fun _ => ⟨false, 1, some "E", "", ""⟩) none ["make test"] [])
        3).iterations.length = 2 := by
  have h := c4_stall_at_iteration_two
    (LoopEnv.mk "job" (fun _ => Except.ok ⟨none, none⟩)
      (fun _ => ⟨false, 1, some "E", "", ""⟩) none ["make test"] [])
    3 "E" (by omega) rfl (fun c => ⟨⟨none, none⟩, rfl⟩)
    (fun i => ⟨rfl, rfl⟩) (by decide)
  exact ⟨rfl, h.1, h.2⟩

/-- The context strings handed to the model during a constant-failure
steady state: the incoming context, then one generic failure context per
further iteration. -/
def steadyContexts (env : LoopEnv) (context : String) (i r : Nat) :
    List String :=
  match r with
  | 0 => []
  | r + 1 => context :: (List.range' i r).map
      (fun j => failureContext env.jobPrompt j (env.runFn j))

theorem steadyContexts_shift (env : LoopEnv) (context : String)
    (i r : Nat) :
    [context] ++ steadyContexts env
        (failureContext env.jobPrompt i (env.runFn i)) (i + 1) r
      = context :: (List.range' i r).map
          (fun j => failureContext env.jobPrompt j (env.runFn j)) := by
  cases r with
  | zero => simp [steadyContexts]
  | succ m => simp [steadyContexts, List.range'_succ]

/-- Steady state of a constant-failure run with an unblocker: once the
repeated signature is in the failure history, every remaining iteration
invokes the unblocker once and passes the generic failure context — not
the unblocker diagnosis — to the next model call, until the budget is
exhausted. -/
theorem go_steady (env : LoopEnv) (s : String) (f : String → String)
    (hub : env.unblockerFn = some f)
    (hm : ∀ c, ∃ mo, env.modelFn c = Except.ok mo)
    (hr : ∀ i, (env.runFn i).success = false
      ∧ (env.runFn i).failure_signature = some s)
    (hs : s.isEmpty = false) :
    ∀ (r i : Nat) (fs : Fs) (history : List String) (context : String)
      (acc : LoopAcc),
    history.contains s = true →
    (verificationGo env r i fs history context acc).status
        = ExecutionStatus.MAX_ITERATIONS
    ∧ (verificationGo env r i fs history context acc).unblocker_calls
        = acc.unblocker_calls + r
    ∧ (verificationGo env r i fs history context acc).unblocker_invoked
        = (acc.unblocker_invoked || decide (1 ≤ r))
    ∧ (verificationGo env r i fs history context acc).model_contexts
        = acc.model_contexts ++ steadyContexts env context i r := by
  intro r
  induction r with
  | zero =>
    intro i fs history context acc hc
    simp [verificationGo, mkResult, steadyContexts]
  | succ r ih =>
    intro i fs history context acc hc
    obtain ⟨mo, hmo⟩ := hm context
    rw [verificationGo]
    dsimp only
    rw [hmo]
    dsimp only
    rw [(hr i).1, (hr i).2]
    simp only [truthyOptStr, hs, Bool.not_false, Bool.false_eq_true,
      if_false, if_true, Option.getD_some, hc, hub]
    refine ⟨(ih _ _ _ _ _ hc).1, ?_, ?_, ?_⟩
    · rw [(ih _ _ _ _ _ hc).2.1]
      dsimp only
      omega
    · rw [(ih _ _ _ _ _ hc).2.2.1]
      simp
    · rw [(ih _ _ _ _ _ hc).2.2.2]
      dsimp only
      rw [List.append_assoc]
      rw [steadyContexts_shift env context i r]
      rfl

/-- C7 (amended): with an unblocker configured and every command run
failing with one and the same signature, the loop never stalls and runs
to `MAX_ITERATIONS`, the unblocker is invoked once per stalled iteration
— `N - 1` times in total, not once per run — and every model call after
the first receives the generic failure context: the unblocker diagnosis
context assigned in the stall branch is overwritten before the next
model call and never reaches a prompt. -/
theorem c7_unblocker_per_stall (env : LoopEnv) (N : Nat) (s : String)
    (f : String → String)
    (hN : 1 ≤ N)
    (hub : env.unblockerFn = some f)
    (hm : ∀ c, ∃ mo, env.modelFn c = Except.ok mo)
    (hr : ∀ i, (env.runFn i).success = false
      ∧ (env.runFn i).failure_signature = some s)
    (hs : s.isEmpty = false) :
    (verification_loop env N).status = ExecutionStatus.MAX_ITERATIONS
    ∧ (verification_loop env N).unblocker_calls = N - 1
    ∧ (verification_loop env N).unblocker_invoked = decide (2 ≤ N)
    ∧ (verification_loop env N).model_contexts
        = env.jobPrompt :: (List.range' 1 (N - 1)).map
            (fun j => failureContext env.jobPrompt j (env.runFn j)) := by
  obtain ⟨n, rfl⟩ : ∃ n, N = n + 1 := ⟨N - 1, by omega⟩
  rw [(verification_loop_fields env (n + 1)).1,
    (verification_loop_fields env (n + 1)).2.2.1,
    (verification_loop_fields env (n + 1)).2.2.2.1,
    (verification_loop_fields env (n + 1)).2.2.2.2]
  obtain ⟨mo1, hmo1⟩ := hm env.jobPrompt
  rw [verificationGo]
  dsimp only
  rw [hmo1]
  dsimp only
  rw [(hr 1).1, (hr 1).2]
  simp only [truthyOptStr, hs, Bool.not_false, Bool.false_eq_true,
    if_false, if_true, Option.getD_some, List.contains_nil,
    List.nil_append]
  have hc : ([s] : List String).contains s = true := by simp
  obtain ⟨h1, h2, h3, h4⟩ :=
    go_steady env s f hub hm hr hs n (1 + 1)
      (apply_edits (parse_edits mo1) env.fs0).1 [s]
      (failureContext env.jobPrompt 1 (env.runFn 1))
      { iterations := accInit.iterations ++
          [{ iteration := 1,
             edits_applied := (apply_edits (parse_edits mo1) env.fs0).2.length,
             commands_run := env.commands, success := false,
             failure_signature := some s }],
        edits_total := accInit.edits_total
          + (apply_edits (parse_edits mo1) env.fs0).2.length,
        unblocker_invoked := accInit.unblocker_invoked,
        unblocker_calls := accInit.unblocker_calls,
        model_contexts := accInit.model_contexts ++ [env.jobPrompt] } hc
  refine ⟨h1, ?_, ?_, ?_⟩
  · rw [h2]
    dsimp only [accInit]
    omega
  · rw [h3]
    dsimp only [accInit]
    rw [Bool.false_or]
    exact decide_eq_decide.mpr (by omega)
  · rw [h4]
    dsimp only [accInit]
    simpa using steadyContexts_shift env env.jobPrompt 1 n

/-- C7 (counterexample): in a concrete constant-failure run with an
unblocker configured and `max_iterations = 4`, the unblocker is invoked
three times — once per stalled iteration — refuting "invoked exactly
once for that run". -/
theorem c7_counterexample :
    (verification_loop
        (LoopEnv.mk "" (fun _ => Except.ok ⟨none, none⟩)
          (fun _ => ⟨false, 1, some "E", "", ""⟩)
          (some (fun _ => "D")) [] [])
        4).unblocker_calls = 3
    ∧ (verification_loop
        (LoopEnv.mk "" (fun _ => Except.ok ⟨none, none⟩)
          (fun _ => ⟨false, 1, some "E", "", ""⟩)
          (some (fun _ => "D")) [] [])
        4).unblocker_calls ≠ 1 := by
  refine ⟨by decide, by decide⟩

/-- Witness for `c7_unblocker_per_stall` at a concrete constant-failure
environment with `N = 3`. -/
theorem c7_unblocker_per_stall_witness :
    ((LoopEnv.mk "j" (fun _ => Except.ok ⟨none, none⟩)
        (fun _ => ⟨false, 1, some "E", "x", ""⟩)
        (some (fun _ => "D")) [] []).unblockerFn = some (fun _ => "D"))
    ∧ (verification_loop
        (LoopEnv.mk "j" (fun _ => Except.ok ⟨none, none⟩)
          (fun _ => ⟨false, 1, some "E", "x", ""⟩)
          (some (fun _ => "D")) [] []) 3).status
        = ExecutionStatus.MAX_ITERATIONS
    ∧ (verification_loop
        (LoopEnv.mk "j" (fun _ => Except.ok ⟨none, none⟩)
          (fun _ => ⟨false, 1, some "E", "x", ""⟩)
          (some (fun _ => "D")) [] []) 3).unblocker_calls = 2
    ∧ (verification_loop
        (LoopEnv.mk "j" (fun _ => Except.ok ⟨none, none⟩)
          (fun _ => ⟨false, 1, some "E", "x", ""⟩)
          (some (fun _ => "D")) [] []) 3).unblocker_invoked = true := by
  have h := c7_unblocker_per_stall
    (LoopEnv.mk "j" (fun _ => Except.ok ⟨none, none⟩)
      (fun _ => ⟨false, 1, some "E", "x", ""⟩)
      (some (fun _ => "D")) [] [])
    3 "E" (fun _ => "D") (by omega) rfl (fun c => ⟨⟨none, none⟩, rfl⟩)
    (fun i => ⟨rfl, rfl⟩) (by decide)
  exact ⟨rfl, h.1, h.2.1, by rw [h.2.2.1]; decide⟩

/-! ## Undo store — modelled from the spec

`agent/loop.py` records undo information (`record_file_change` after
each successful write/edit) and performs undo (`_do_undo` via
`can_undo`/`undo_last_change`/`undo_stack`), but the undo store itself —
the methods `record_change`/`undo_last` and the stack they maintain —
is not defined in this source tree; only its callers are.  The
definitions below are therefore modelled from the spec (§3 `FileChange`,
§4.3 Context & Constraint Store): a bounded LIFO stack of `FileChange`
records; popping restores `old_content`, or deletes the file if
`action = created`; on restore failure the popped entry is retained. -/

/-- Modelled from the spec: `FileChange` undo record
`{path, old_content|null, new_content, action, timestamp}` (wall-clock
timestamp omitted). -/
structure FileChange where
  path : String
  old_content : Option String
  new_content : String
  action : String
deriving DecidableEq, Repr

/-- Modelled from the spec: the undo-capable slice of the agent context:
the filesystem it restores into plus a bounded LIFO undo stack (newest
first; entries beyond `max_undo` evicted oldest-first). -/
structure UndoCtx where
  fs : Fs
  undo_stack : List FileChange
  max_undo : Nat
deriving Repr

/-- Modelled from the spec: `record_change(path, old, new, action)`
pushes a `FileChange` and truncates the stack to its bound. -/
def record_change (c : UndoCtx) (p : String) (old : Option String)
    (new : String) (action : String) : UndoCtx :=
  { c with undo_stack :=
      (⟨p, old, new, action⟩ :: c.undo_stack).take c.max_undo }

/-- Modelled from the spec: `undo_last()` pops the newest entry and
restores the filesystem — delete the file when the entry's action is
"created", otherwise write back `old_content` (a `none` pre-image means
the file did not exist before).  `restoreOk` is the outcome of the
filesystem restore operation; on failure the entry is retained, not
dropped.  Returns the new context and whether an undo was performed. -/
def undo_last (restoreOk : Bool) (c : UndoCtx) : UndoCtx × Bool :=
  match c.undo_stack with
  | [] => (c, false)
  | ch :: rest =>
    if restoreOk then
      let fs1 :=
        if ch.action == "created" then eraseKey ch.path c.fs
        else match ch.old_content with
          | some oc => setKey ch.path oc c.fs
          | none => eraseKey ch.path c.fs
      ({ c with fs := fs1, undo_stack := rest }, true)
    else (c, false)

/-- C9: undo round-trip.  Recording `record_change(p, old, new,
"modified")` and then undoing restores the content at `p` to `old` and
pops exactly one entry (the stack becomes the tail of what
`record_change` produced); on restore failure the context — stack entry
included — is retained unchanged. -/
theorem c9_undo_round_trip (c : UndoCtx) (p old new : String)
    (hcap : 1 ≤ c.max_undo) :
    ((undo_last true (record_change c p (some old) new "modified")).1.fs.lookup p
        = some old)
    ∧ (undo_last true (record_change c p (some old) new "modified")).2 = true
    ∧ (undo_last true (record_change c p (some old) new "modified")).1.undo_stack
        = (record_change c p (some old) new "modified").undo_stack.tail
    ∧ (undo_last true (record_change c p (some old) new "modified")).1.undo_stack.length
        = (record_change c p (some old) new "modified").undo_stack.length - 1
    ∧ (undo_last false (record_change c p (some old) new "modified")).1
        = record_change c p (some old) new "modified" := by
  obtain ⟨m, hm⟩ : ∃ m, c.max_undo = m + 1 := ⟨c.max_undo - 1, by omega⟩
  have hc1 : record_change c p (some old) new "modified"
      = ⟨c.fs, ⟨p, some old, new, "modified"⟩ :: c.undo_stack.take m,
          c.max_undo⟩ := by
    simp [record_change, hm, List.take_succ_cons]
  rw [hc1]
  refine ⟨?_, rfl, rfl, by simp [undo_last], rfl⟩
  simp [undo_last, lookup_setKey]

/-- Witness for `c9_undo_round_trip`: one file "/a" holding "v2" after a
modification away from "v1", bound 10. -/
theorem c9_undo_round_trip_witness :
    1 ≤ (UndoCtx.mk [("/a", "v2")] [] 10).max_undo
    ∧ ((undo_last true (record_change (UndoCtx.mk [("/a", "v2")] [] 10)
        "/a" (some "v1") "v2" "modified")).1.fs.lookup "/a" = some "v1")
    ∧ (undo_last true (record_change (UndoCtx.mk [("/a", "v2")] [] 10)
        "/a" (some "v1") "v2" "modified")).1.undo_stack.length
        = (record_change (UndoCtx.mk [("/a", "v2")] [] 10)
            "/a" (some "v1") "v2" "modified").undo_stack.length - 1 :=
  ⟨by decide,
    (c9_undo_round_trip (UndoCtx.mk [("/a", "v2")] [] 10) "/a" "v1" "v2"
      (by decide)).1,
    (c9_undo_round_trip (UndoCtx.mk [("/a", "v2")] [] 10) "/a" "v1" "v2"
      (by decide)).2.2.2.1⟩

end Roura
